import Mathlib

/-!
Verification of the BlueMap `wswatcher` tile-change watcher.

This file shallowly embeds the data model and operations of
`src/common/wswatcher/wswatcher.py`:

* the path-extraction regular expression `PATH_EXTRACT_RE`
  (`maps/(?P<world>[^/]+)/tiles/(?P<lod>\d+)/x(?P<x>[-\d]+)/z(?P<z>[-\d]+)\.(?:png|json)(?:\.gz)?`,
  used with `fullmatch`), embedded as a segment-wise matcher over `List Char`;
* Python `int()` parsing of the captured numeric fields;
* the `connected` registry (a Python dict mapping a world name to a set of
  websockets) together with the websocket `handler`'s connect and teardown
  behaviour;
* one iteration of the watch loop in `serve`, which extracts coordinates from
  a changed path and broadcasts a JSON payload to the subscribers of the
  world;
* spec-modelled stand-ins for the external `watchfiles.awatch` debouncing and
  `websockets.broadcast` fan-out, which are third-party libraries that are not
  part of this repository.

The embedding restricts Python's `\d` and `int()` to ASCII digits (Python
would additionally accept Unicode decimal digits in both, consistently), and
models `os.path.join(webroot, "maps", world, "tiles")` as string concatenation
with `/` separators, which agrees with `os.path.join` whenever the later
components do not start with a slash (the handler's stripped selector never
does).  Websockets are identified by `Nat` ids; each real connection is a
fresh Python object, which the reachability relation models by requiring a
connecting id to be registered nowhere.
-/

namespace Wswatcher

/-- A character is a slash. -/
def isSlash (c : Char) : Bool := c = '/'

/-- `[-\d]` of the regex: a hyphen or an ASCII digit. -/
def hyphenDigit (c : Char) : Bool := c = '-' || c.isDigit

/-- Lists of characters that contain no `/`; path segments produced by
splitting on `/` satisfy this. -/
def noSlash (l : List Char) : Prop := ∀ c ∈ l, ¬(c = '/')

instance (l : List Char) : Decidable (noSlash l) :=
  inferInstanceAs (Decidable (∀ c ∈ l, ¬(c = '/')))

/-- Split a character list on `/`, like splitting a POSIX relative path into
its segments.  `splitSlash "a/b" = [['a'], ['b']]`, and empty segments are
kept, matching the semantics of the regex's explicit `/` literals. -/
def splitSlash : List Char → List (List Char)
  | [] => [[]]
  | c :: cs =>
    if c = '/' then [] :: splitSlash cs
    else
      match splitSlash cs with
      | [] => [[c]]
      | s :: rest => (c :: s) :: rest

/-- Numeric value of an ASCII digit character. -/
def digitVal (c : Char) : Nat := c.toNat - '0'.toNat

/-- Value of a base-10 digit string (most significant digit first). -/
def digitsToNat (l : List Char) : Nat := l.foldl (fun a c => 10 * a + digitVal c) 0

/-- Parse a non-empty all-digit string as a natural number, as Python `int()`
does after the optional sign (restricted to ASCII digits, no underscores or
surrounding whitespace — the regex captures can contain neither). -/
def parseNatDigits (l : List Char) : Option Nat :=
  if l ≠ [] ∧ l.all Char.isDigit then some (digitsToNat l) else none

/-- Python `int(s)` on the strings the regex can capture: an optional single
sign followed by a non-empty run of digits; anything else (for example
`"1-2"` or `"-"`) raises `ValueError`, modelled as `none`. -/
def pyInt : List Char → Option Int
  | [] => none
  | c :: rest =>
    if c = '-' then (parseNatDigits rest).map (fun n => -(n : Int))
    else if c = '+' then (parseNatDigits rest).map (fun n => (n : Int))
    else (parseNatDigits (c :: rest)).map (fun n => (n : Int))

/-- Decimal rendering of a natural number, fuel-based so that it reduces in
the kernel.  `natDigitsCore () fuel n acc` prepends the digits of `n` to
`acc` provided `n ≤ fuel`. -/
def natDigitsCore (W : Unit) : Nat → Nat → List Char → List Char
  | _, 0, acc => acc
  | 0, _, acc => acc
  | fuel + 1, n + 1, acc =>
    natDigitsCore W fuel ((n + 1) / 10) (Nat.digitChar ((n + 1) % 10) :: acc)

/-- Canonical decimal digit string of a natural number. -/
def natDigits (n : Nat) : List Char :=
  if n = 0 then ['0'] else natDigitsCore () n n []

/-- Canonical decimal digit string of an integer (with a leading `-` when
negative), matching Python's `str`/`repr` of an `int`. -/
def intDigits : Int → List Char
  | Int.ofNat n => natDigits n
  | Int.negSucc n => '-' :: natDigits (n + 1)

/-- Strip an expected run of characters from the front of a list, or fail. -/
def dropPre : List Char → List Char → Option (List Char)
  | [], l => some l
  | _ :: _, [] => none
  | p :: ps, c :: cs => if c = p then dropPre ps cs else none

/-- Strip `suf` from the end of `l`, or fail. -/
def stripSuf (suf l : List Char) : Option (List Char) :=
  (dropPre suf.reverse l.reverse).map List.reverse

/-- The body of the last path segment: `z` followed by a non-empty `[-\d]+`
run (checked after the extension has been stripped). -/
def zBody : List Char → Option (List Char)
  | [] => none
  | c :: body =>
    if c = 'z' ∧ body ≠ [] ∧ body.all hyphenDigit then some body else none

/-- Match the filename part of `PATH_EXTRACT_RE`:
`z(?P<z>[-\d]+)\.(?:png|json)(?:\.gz)?`, returning the `z` capture. -/
def parseZName (name : List Char) : Option (List Char) :=
  let base := (stripSuf ".gz".data name).getD name
  match stripSuf ".png".data base with
  | some core => zBody core
  | none =>
    match stripSuf ".json".data base with
    | some core => zBody core
    | none => none

/-- The named captures of `PATH_EXTRACT_RE` (all four are strings in the
Python code; integer conversion happens separately, at broadcast time). -/
structure RegexCaptures where
  world : List Char
  lod : List Char
  x : List Char
  z : List Char
  deriving DecidableEq, Repr

/-- Match the `x`-segment and the filename once the fixed segments have been
checked. -/
def extractTail : List Char → Option (List Char) → List Char → List Char → Option RegexCaptures
  | c :: xs, some zs, w, lodS =>
    if c = 'x' ∧ xs ≠ [] ∧ xs.all hyphenDigit then some ⟨w, lodS, xs, zs⟩ else none
  | _, _, _, _ => none

/-- Match a full segment list against the grammar of `PATH_EXTRACT_RE`:
exactly six segments `maps / world / tiles / lod / x… / z….ext[.gz]`. -/
def extractSegs : List (List Char) → Option RegexCaptures
  | [s0, w, s2, lodS, xSeg, zName] =>
    if s0 = "maps".data ∧ s2 = "tiles".data ∧ w ≠ [] ∧ lodS ≠ [] ∧ lodS.all Char.isDigit
    then extractTail xSeg (parseZName zName) w lodS
    else none
  | _ => none

/-- `PATH_EXTRACT_RE.fullmatch(path)` of wswatcher.py lines 20-22: the whole
path must consist of exactly the grammar's segments. -/
def PATH_EXTRACT_RE_fullmatch (s : String) : Option RegexCaptures :=
  extractSegs (splitSlash s.data)

/-- The structured record extracted from a changed path: dataset key plus the
three integer coordinates obtained by `int()` on the captures. -/
structure TileCoordinate where
  world : String
  lod : Int
  x : Int
  z : Int
  deriving DecidableEq, Repr

/-- Integer conversion of the regex captures, as the broadcast site performs
it (`int(v)` on each of `lod`, `x`, `z`); `none` when Python would raise
`ValueError`. -/
def coordOfCaptures (caps : RegexCaptures) : Option TileCoordinate :=
  match pyInt caps.lod, pyInt caps.x, pyInt caps.z with
  | some l, some xv, some zv => some ⟨⟨caps.world⟩, l, xv, zv⟩
  | _, _, _ => none

/-- The spec's `PathExtractor`: structural regex match followed by base-10
signed-integer parsing of the numeric fields. -/
def extractCoord (s : String) : Option TileCoordinate :=
  match PATH_EXTRACT_RE_fullmatch s with
  | some caps => coordOfCaptures caps
  | none => none

/-- Optional `.gz` compression suffix of a tile path. -/
def gzSuffix (gz : Bool) : List Char := if gz then ".gz".data else []

/-- A path of the grammar with literal integer fields, in canonical decimal
notation: `maps/<k>/tiles/<lod>/x<x>/z<z><ext>[.gz]`. -/
def buildPath (k : String) (lod : Nat) (x z : Int) (ext : String) (gz : Bool) : String :=
  ⟨"maps".data ++ '/' :: (k.data ++ '/' :: ("tiles".data ++ '/' ::
    (natDigits lod ++ '/' :: (('x' :: intDigits x) ++ '/' ::
      ('z' :: (intDigits z ++ ext.data ++ gzSuffix gz))))))⟩

/-- The `connected` registry of wswatcher.py line 52: a dict mapping a world
name to the set of its subscribed websockets, modelled as an association
list of duplicate-free lists. -/
abbrev Conn := List (String × List Nat)

/-- Python `world in connected`. -/
def dictMem : Conn → String → Bool
  | [], _ => false
  | p :: rest, k => p.1 == k || dictMem rest k

/-- Python `connected[world]` where a missing key yields the empty set (the
code only indexes keys it has checked or inserted). -/
def dictGet : Conn → String → List Nat
  | [], _ => []
  | p :: rest, k => if p.1 == k then p.2 else dictGet rest k

/-- Python `connected[world] = v`: replace in place, or append a new entry. -/
def dictSet : Conn → String → List Nat → Conn
  | [], k, v => [(k, v)]
  | p :: rest, k, v => if p.1 == k then (k, v) :: rest else p :: dictSet rest k v

/-- Python `set.add`. -/
def setAdd (s : List Nat) (x : Nat) : List Nat := if x ∈ s then s else s ++ [x]

/-- `make_tile_path` of wswatcher.py lines 25-26:
`os.path.join(webroot, "maps", world, "tiles")`. -/
def make_tile_path (webroot world : String) : String :=
  webroot ++ "/maps/" ++ world ++ "/tiles"

/-- Drop every leading slash. -/
def trimStartSlash (l : List Char) : List Char := l.dropWhile isSlash

/-- Drop every trailing slash. -/
def trimEndSlash (l : List Char) : List Char := (l.reverse.dropWhile isSlash).reverse

/-- Python `s.strip("/")` (wswatcher.py line 55): remove all leading and
trailing slashes of the request target. -/
def pyStripSlash (s : String) : String := ⟨trimEndSlash (trimStartSlash s.data)⟩

/-- The connect half of `handler` (wswatcher.py lines 54-65): derive the
world key from the request target, reject unknown or empty keys by returning
with the registry unchanged (`false`), otherwise register the websocket under
the key (`true`). -/
def handlerConnect (tile_dirs : List String) (webroot : String) (c : Conn)
    (target : String) (ws : Nat) : Conn × Bool :=
  let path := pyStripSlash target
  if path = "" ∨ make_tile_path webroot path ∉ tile_dirs then (c, false)
  else
    let c1 := if dictMem c path then c else dictSet c path []
    (dictSet c1 path (setAdd (dictGet c1 path) ws), true)

/-- The teardown half of `handler` (wswatcher.py line 69):
`connected[path].remove(websocket)`.  Python `dict[key]` raises `KeyError`
for a missing key and `set.remove` raises `KeyError` for a missing element;
both are modelled as `Except.error`. -/
def handlerDisconnect (c : Conn) (w : String) (ws : Nat) : Except String Conn :=
  if dictMem c w then
    if ws ∈ dictGet c w then Except.ok (dictSet c w ((dictGet c w).erase ws))
    else Except.error "KeyError"
  else Except.error "KeyError"

/-- The set of websockets a broadcast for `w` is handed to (wswatcher.py
lines 96-100): `connected[world]` when `world in connected`, and no send at
all otherwise. -/
def broadcastTargets (c : Conn) (w : String) : List Nat :=
  if dictMem c w then dictGet c w else []

/-- Registry states reachable by the server: it starts empty, `handler`
registers each freshly connected websocket (a new Python object, hence
registered nowhere) and unregisters it on teardown. -/
inductive Reachable (tile_dirs : List String) (webroot : String) : Conn → Prop
  | empty : Reachable tile_dirs webroot []
  | connect {c : Conn} (target : String) (ws : Nat)
      (h : Reachable tile_dirs webroot c) (hfresh : ∀ k, ws ∉ dictGet c k) :
      Reachable tile_dirs webroot (handlerConnect tile_dirs webroot c target ws).1
  | disconnect {c c' : Conn} (w : String) (ws : Nat)
      (h : Reachable tile_dirs webroot c) (hd : handlerDisconnect c w ws = Except.ok c') :
      Reachable tile_dirs webroot c'

/-- The fields of a `json.dumps` int dict, separated by `", "` with `": "`
after each key, as Python's default separators produce. -/
def jsonFields : List (String × Int) → String
  | [] => ""
  | [kv] => "\"" ++ kv.1 ++ "\": " ++ toString kv.2
  | kv :: rest => "\"" ++ kv.1 ++ "\": " ++ toString kv.2 ++ ", " ++ jsonFields rest

/-- Python `json.dumps` on a dict of ints, in insertion order. -/
def jsonDumpsInts (kvs : List (String × Int)) : String :=
  "\x7b" ++ jsonFields kvs ++ "\x7d"

/-- The payload shape required by the spec, written from the spec's words for
comparison: a JSON text of exactly the shape
`\x7b"lod": <int>, "x": <int>, "z": <int>\x7d`, with no dataset key. -/
def specPayloadShape (lod x z : Int) : String :=
  "\x7b\"lod\": " ++ toString lod ++ ", \"x\": " ++ toString x ++ ", \"z\": " ++
    toString z ++ "\x7d"

/-- The dict built at the broadcast site (wswatcher.py lines 89-99):
`groupdict()` yields `world`, `lod`, `x`, `z` in declaration order, `world`
is popped, and each remaining value is converted with `int()`; `none` when a
conversion raises `ValueError`. -/
def payloadDict (caps : RegexCaptures) : Option (List (String × Int)) :=
  match pyInt caps.lod, pyInt caps.x, pyInt caps.z with
  | some l, some xv, some zv => some [("lod", l), ("x", xv), ("z", zv)]
  | _, _, _ => none

/-- One iteration of the watch loop body for a changed path (wswatcher.py
lines 88-102): on a regex match, if the world has an entry in `connected`,
serialize the payload (where `int()` may raise, modelled as `Except.error`)
and hand it to `websockets.broadcast` with recipients `connected[world]`; on
no match, or an unknown world, do nothing. -/
def processChange (c : Conn) (relpath : String) :
    Except String (Option (String × List Nat × String)) :=
  match PATH_EXTRACT_RE_fullmatch relpath with
  | none => Except.ok none
  | some caps =>
    let world : String := ⟨caps.world⟩
    if dictMem c world then
      match payloadDict caps with
      | some kvs => Except.ok (some (world, dictGet c world, jsonDumpsInts kvs))
      | none => Except.error "ValueError: invalid literal for int() with base 10"
    else Except.ok none

/-- Modelled from the spec: `websockets.broadcast` is provided by the
external `websockets` library and is not part of this repository.  Per the
spec (§4.3), it attempts a send to every subscriber it is handed; a single
subscriber's send failure is caught and logged, never re-raised, and must not
abort delivery to the remaining subscribers.  The function returns the
subscribers to which the payload was delivered. -/
def wsBroadcast (send : Nat → Except String Unit) (subs : List Nat) : List Nat :=
  subs.filter (fun s => (send s).isOk)

/-- The kind of a raw filesystem change, as reported by the notifier. -/
inductive ChangeKind
  | added
  | modified
  | deleted
  deriving DecidableEq, Repr

/-- A raw filesystem event: arrival time (milliseconds), path, kind. -/
structure RawEvent where
  t : Nat
  path : String
  kind : ChangeKind
  deriving DecidableEq, Repr

/-- Modelled from the spec: the debounced batching of `watchfiles.awatch`
(an external library, configured in wswatcher.py lines 74-80 with
`step = debounce = DEBOUCE_MS`), which is not part of this repository.  Per
the spec (§4.2), the first unflushed event opens a window of `W`
milliseconds; every event arriving within the window is coalesced into the
same batch, and a batch is a deduplicated set of (path, kind) pairs.  Fuel
makes the recursion structural. -/
def aggregateCore (W : Nat) : Nat → List RawEvent → List (List (String × ChangeKind))
  | _, [] => []
  | 0, _ => []
  | fuel + 1, e :: rest =>
    let inWin := rest.takeWhile (fun e2 => decide (e2.t < e.t + W))
    let later := rest.dropWhile (fun e2 => decide (e2.t < e.t + W))
    ((e :: inWin).map (fun ev => (ev.path, ev.kind))).dedup :: aggregateCore W fuel later

/-- Modelled from the spec: the batch sequence produced by the change
aggregator for a time-ordered event list. -/
def aggregate (W : Nat) (evs : List RawEvent) : List (List (String × ChangeKind)) :=
  aggregateCore W evs.length evs

/-- Supervisor phases of the spec's state machine. -/
inductive Phase
  | initializing
  | running
  | stopped
  deriving DecidableEq, Repr

/-- The initialization of `serve` (wswatcher.py lines 29-35): with the
enumerated tile directories given, raise `ValueError` when none were found,
otherwise proceed to the Running phase (starting the websocket server and
the file watcher). -/
def serveStart (tile_dirs : List String) : Except String Phase :=
  if tile_dirs.isEmpty then Except.error "No tile folders to watch found"
  else Except.ok Phase.running

/-- The process exit status of `main` (wswatcher.py lines 107-137): the
`ValueError` raised by `serve` is not caught anywhere, so the interpreter
terminates with a non-zero status; a clean return exits with 0. -/
def mainExitCode (tile_dirs : List String) : Nat :=
  match serveStart tile_dirs with
  | Except.error _ => 1
  | Except.ok _ => 0

theorem splitSlash_ne_nil (l : List Char) : splitSlash l ≠ [] := by
  induction l with
  | nil => simp [splitSlash]
  | cons c cs ih =>
    simp only [splitSlash]
    split
    · simp
    · cases h : splitSlash cs with
      | nil => simp
      | cons s rest => simp

theorem splitSlash_no_slash (l : List Char) (h : noSlash l) : splitSlash l = [l] := by
  induction l with
  | nil => rfl
  | cons c cs ih =>
    have hc : ¬(c = '/') := h c (List.mem_cons_self c cs)
    have hcs : noSlash cs := fun d hd => h d (List.mem_cons_of_mem c hd)
    simp only [splitSlash, if_neg hc, ih hcs]

theorem splitSlash_append (a b : List Char) (ha : noSlash a) :
    splitSlash (a ++ '/' :: b) = a :: splitSlash b := by
  induction a with
  | nil => simp [splitSlash]
  | cons c cs ih =>
    have hc : ¬(c = '/') := ha c (List.mem_cons_self c cs)
    have hcs : noSlash cs := fun d hd => ha d (List.mem_cons_of_mem c hd)
    simp only [List.cons_append, splitSlash, if_neg hc, List.append_eq, ih hcs]

theorem noSlash_append {a b : List Char} (ha : noSlash a) (hb : noSlash b) :
    noSlash (a ++ b) := by
  intro c hc
  rcases List.mem_append.mp hc with h | h
  · exact ha c h
  · exact hb c h

theorem noSlash_cons {c : Char} {l : List Char} (hc : ¬(c = '/')) (hl : noSlash l) :
    noSlash (c :: l) := by
  intro d hd
  rcases List.mem_cons.mp hd with h | h
  · exact h ▸ hc
  · exact hl d h

theorem noSlash_of_all_digit {l : List Char} (h : l.all Char.isDigit = true) : noSlash l := by
  intro c hc heq
  have : Char.isDigit c = true := List.all_eq_true.mp h c hc
  rw [heq] at this
  exact absurd this (by decide)

theorem noSlash_of_all_hyphenDigit {l : List Char} (h : l.all hyphenDigit = true) : noSlash l := by
  intro c hc heq
  have : hyphenDigit c = true := List.all_eq_true.mp h c hc
  rw [heq] at this
  exact absurd this (by decide)


theorem digitChar_isDigit {d : Nat} (h : d < 10) : (Nat.digitChar d).isDigit = true := by
  interval_cases d <;> decide

theorem digitVal_digitChar {d : Nat} (h : d < 10) : digitVal (Nat.digitChar d) = d := by
  interval_cases d <;> decide

theorem natDigitsCore_zero (fuel : Nat) (acc : List Char) :
    natDigitsCore () fuel 0 acc = acc := by
  cases fuel <;> rfl

theorem natDigitsCore_shift (n : Nat) : ∀ fuel acc, n ≤ fuel → 0 < n →
    natDigitsCore () fuel n acc = natDigitsCore () n n [] ++ acc := by
  induction n using Nat.strong_induction_on with
  | _ n ih =>
    intro fuel acc hfuel hpos
    match n, hpos with
    | m + 1, _ =>
      match fuel, hfuel with
      | f + 1, hf =>
        show natDigitsCore () f ((m + 1) / 10) (Nat.digitChar ((m + 1) % 10) :: acc) = _
        by_cases hq : (m + 1) / 10 = 0
        · rw [hq, natDigitsCore_zero]
          have h2 : natDigitsCore () (m + 1) (m + 1) [] =
              natDigitsCore () m ((m + 1) / 10) [Nat.digitChar ((m + 1) % 10)] := rfl
          rw [h2, hq, natDigitsCore_zero]
          rfl
        · have hqlt : (m + 1) / 10 < m + 1 := Nat.div_lt_self (Nat.succ_pos m) (by omega)
          have hqle_f : (m + 1) / 10 ≤ f := by omega
          have hqle_m : (m + 1) / 10 ≤ m := by omega
          have hqpos : 0 < (m + 1) / 10 := Nat.pos_of_ne_zero hq
          rw [ih ((m + 1) / 10) hqlt f _ hqle_f hqpos]
          have h2 : natDigitsCore () (m + 1) (m + 1) [] =
              natDigitsCore () m ((m + 1) / 10) [Nat.digitChar ((m + 1) % 10)] := rfl
          rw [h2, ih ((m + 1) / 10) hqlt m _ hqle_m hqpos, List.append_assoc]
          rfl

theorem natDigits_props (n : Nat) :
    natDigits n ≠ [] ∧ (natDigits n).all Char.isDigit = true ∧
      digitsToNat (natDigits n) = n := by
  induction n using Nat.strong_induction_on with
  | _ n ih =>
    by_cases h0 : n = 0
    · subst h0; refine ⟨by decide, by decide, by decide⟩
    · match n, h0 with
      | m + 1, _ =>
        have hstep : natDigits (m + 1) =
            natDigitsCore () m ((m + 1) / 10) [Nat.digitChar ((m + 1) % 10)] := rfl
        have hmod : (m + 1) % 10 < 10 := Nat.mod_lt _ (by omega)
        by_cases hq : (m + 1) / 10 = 0
        · have hlt : m + 1 < 10 := by
            rcases Nat.lt_or_ge (m + 1) 10 with h | h
            · exact h
            · exact absurd hq (by have := Nat.div_le_div_right (c := 10) h; omega)
          have : natDigits (m + 1) = [Nat.digitChar ((m + 1) % 10)] := by
            rw [hstep, hq, natDigitsCore_zero]
          rw [this]
          refine ⟨by simp, by simp [digitChar_isDigit hmod], ?_⟩
          show digitsToNat [Nat.digitChar ((m + 1) % 10)] = m + 1
          have : digitsToNat [Nat.digitChar ((m + 1) % 10)] =
              digitVal (Nat.digitChar ((m + 1) % 10)) := by
            simp [digitsToNat, List.foldl]
          rw [this, digitVal_digitChar hmod, Nat.mod_eq_of_lt hlt]
        · have hqlt : (m + 1) / 10 < m + 1 := Nat.div_lt_self (Nat.succ_pos m) (by omega)
          have hqpos : 0 < (m + 1) / 10 := Nat.pos_of_ne_zero hq
          have hqle : (m + 1) / 10 ≤ m := by omega
          have hshift := natDigitsCore_shift ((m + 1) / 10) m
            [Nat.digitChar ((m + 1) % 10)] hqle hqpos
          have hq' : natDigits ((m + 1) / 10) = natDigitsCore () ((m + 1) / 10) ((m + 1) / 10) [] := by
            rw [natDigits, if_neg hq]
          obtain ⟨ihne, ihall, ihval⟩ := ih ((m + 1) / 10) hqlt
          rw [hq'] at ihne ihall ihval
          have heq : natDigits (m + 1) =
              natDigitsCore () ((m + 1) / 10) ((m + 1) / 10) [] ++ [Nat.digitChar ((m + 1) % 10)] := by
            rw [hstep, hshift]
          rw [heq]
          refine ⟨by simp [ihne], ?_, ?_⟩
          · rw [List.all_append, ihall]
            simp [digitChar_isDigit hmod]
          · show digitsToNat (_ ++ [_]) = m + 1
            have hfold : ∀ (l : List Char) (c : Char),
                digitsToNat (l ++ [c]) = 10 * digitsToNat l + digitVal c := by
              intro l c
              simp [digitsToNat, List.foldl_append]
            rw [hfold, ihval, digitVal_digitChar hmod, Nat.div_add_mod]

theorem natDigits_ne_nil (n : Nat) : natDigits n ≠ [] := (natDigits_props n).1

theorem natDigits_all_digit (n : Nat) : (natDigits n).all Char.isDigit = true :=
  (natDigits_props n).2.1

theorem parseNatDigits_natDigits (n : Nat) : parseNatDigits (natDigits n) = some n := by
  rw [parseNatDigits, if_pos ⟨natDigits_ne_nil n, natDigits_all_digit n⟩,
    (natDigits_props n).2.2]

theorem isDigit_ne_dash {c : Char} (h : c.isDigit = true) : ¬(c = '-') := by
  intro heq; rw [heq] at h; exact absurd h (by decide)

theorem isDigit_ne_plus {c : Char} (h : c.isDigit = true) : ¬(c = '+') := by
  intro heq; rw [heq] at h; exact absurd h (by decide)

theorem pyInt_natDigits (n : Nat) : pyInt (natDigits n) = some (n : Int) := by
  cases hd : natDigits n with
  | nil => exact absurd hd (natDigits_ne_nil n)
  | cons c rest =>
    have hc : c.isDigit = true := by
      have h := natDigits_all_digit n
      rw [hd, List.all_cons, Bool.and_eq_true] at h
      exact h.1
    show pyInt (c :: rest) = some (n : Int)
    rw [pyInt, if_neg (isDigit_ne_dash hc), if_neg (isDigit_ne_plus hc), ← hd,
      parseNatDigits_natDigits]
    rfl

theorem pyInt_intDigits (x : Int) : pyInt (intDigits x) = some x := by
  cases x with
  | ofNat n => exact pyInt_natDigits n
  | negSucc n =>
    show pyInt ('-' :: natDigits (n + 1)) = some (Int.negSucc n)
    rw [pyInt, if_pos rfl, parseNatDigits_natDigits]
    simp [Int.negSucc_eq]

theorem intDigits_ne_nil (x : Int) : intDigits x ≠ [] := by
  cases x with
  | ofNat n => exact natDigits_ne_nil n
  | negSucc n => simp [intDigits]

theorem intDigits_all_hyphenDigit (x : Int) : (intDigits x).all hyphenDigit = true := by
  have hnat : ∀ n : Nat, (natDigits n).all hyphenDigit = true := by
    intro n
    have h := natDigits_all_digit n
    rw [List.all_eq_true] at h ⊢
    intro c hc
    have := h c hc
    simp [hyphenDigit, this]
  cases x with
  | ofNat n => exact hnat n
  | negSucc n =>
    show (('-' :: natDigits (n + 1)).all hyphenDigit) = true
    rw [List.all_cons, hnat (n + 1)]
    decide


theorem dropPre_self_append (p m : List Char) : dropPre p (p ++ m) = some m := by
  induction p with
  | nil => rfl
  | cons c cs ih => simp [dropPre, ih]

theorem stripSuf_append (l s : List Char) : stripSuf s (l ++ s) = some l := by
  rw [stripSuf, List.reverse_append, dropPre_self_append]
  simp

/-- The body of the last path segment: `z` followed by a non-empty `[-\d]+`
run (checked after the extension has been stripped). -/

theorem dropPre_cons_ne {p c : Char} {ps cs : List Char} (h : ¬(c = p)) :
    dropPre (p :: ps) (c :: cs) = none := by
  simp [dropPre, h]

theorem png_data_rev : (String.data ".png").reverse = ['g', 'n', 'p', '.'] := by decide

theorem json_data_rev : (String.data ".json").reverse = ['n', 'o', 's', 'j', '.'] := by decide

theorem gz_data_rev : (String.data ".gz").reverse = ['z', 'g', '.'] := by decide

theorem zBody_ok (dz : List Char) (hdz : dz ≠ []) (hall : dz.all hyphenDigit = true) :
    zBody ('z' :: dz) = some dz := by
  rw [zBody, if_pos ⟨rfl, hdz, hall⟩]

theorem stripSuf_gz_none_png (dz : List Char) :
    stripSuf ".gz".data ('z' :: (dz ++ ".png".data)) = none := by
  rw [stripSuf, gz_data_rev,
    show ('z' :: (dz ++ ".png".data)).reverse = 'g' :: ('n' :: 'p' :: '.' :: (dz.reverse ++ ['z']))
      from by simp [png_data_rev],
    dropPre_cons_ne (by decide)]
  rfl

theorem stripSuf_gz_none_json (dz : List Char) :
    stripSuf ".gz".data ('z' :: (dz ++ ".json".data)) = none := by
  rw [stripSuf, gz_data_rev,
    show ('z' :: (dz ++ ".json".data)).reverse = 'n' :: ('o' :: 's' :: 'j' :: '.' :: (dz.reverse ++ ['z']))
      from by simp [json_data_rev],
    dropPre_cons_ne (by decide)]
  rfl

theorem stripSuf_png_none_json (dz : List Char) :
    stripSuf ".png".data ('z' :: (dz ++ ".json".data)) = none := by
  rw [stripSuf, png_data_rev,
    show ('z' :: (dz ++ ".json".data)).reverse = 'n' :: ('o' :: 's' :: 'j' :: '.' :: (dz.reverse ++ ['z']))
      from by simp [json_data_rev],
    dropPre_cons_ne (by decide)]
  rfl

theorem parseZName_png (dz : List Char) (hdz : dz ≠ []) (hall : dz.all hyphenDigit = true) :
    parseZName ('z' :: (dz ++ ".png".data)) = some dz := by
  rw [parseZName]
  rw [stripSuf_gz_none_png, Option.getD_none,
    show 'z' :: (dz ++ ".png".data) = ('z' :: dz) ++ ".png".data from by simp,
    stripSuf_append]
  exact zBody_ok dz hdz hall

theorem parseZName_json (dz : List Char) (hdz : dz ≠ []) (hall : dz.all hyphenDigit = true) :
    parseZName ('z' :: (dz ++ ".json".data)) = some dz := by
  rw [parseZName]
  rw [stripSuf_gz_none_json, Option.getD_none, stripSuf_png_none_json,
    show 'z' :: (dz ++ ".json".data) = ('z' :: dz) ++ ".json".data from by simp,
    stripSuf_append]
  exact zBody_ok dz hdz hall

theorem parseZName_png_gz (dz : List Char) (hdz : dz ≠ []) (hall : dz.all hyphenDigit = true) :
    parseZName ('z' :: (dz ++ ".png".data ++ ".gz".data)) = some dz := by
  rw [parseZName]
  rw [show 'z' :: (dz ++ ".png".data ++ ".gz".data) = ('z' :: (dz ++ ".png".data)) ++ ".gz".data
      from by simp,
    stripSuf_append, Option.getD_some,
    show 'z' :: (dz ++ ".png".data) = ('z' :: dz) ++ ".png".data from by simp,
    stripSuf_append]
  exact zBody_ok dz hdz hall

theorem parseZName_json_gz (dz : List Char) (hdz : dz ≠ []) (hall : dz.all hyphenDigit = true) :
    parseZName ('z' :: (dz ++ ".json".data ++ ".gz".data)) = some dz := by
  rw [parseZName]
  rw [show 'z' :: (dz ++ ".json".data ++ ".gz".data) = ('z' :: (dz ++ ".json".data)) ++ ".gz".data
      from by simp,
    stripSuf_append, Option.getD_some, stripSuf_png_none_json,
    show 'z' :: (dz ++ ".json".data) = ('z' :: dz) ++ ".json".data from by simp,
    stripSuf_append]
  exact zBody_ok dz hdz hall


theorem fullmatch_build_aux (k : String) (lod : Nat) (x z : Int) (tail : List Char)
    (hk1 : k.data ≠ []) (hk2 : noSlash k.data)
    (htail : noSlash ('z' :: tail)) (hparse : parseZName ('z' :: tail) = some (intDigits z)) :
    extractSegs (splitSlash ("maps".data ++ '/' :: (k.data ++ '/' :: ("tiles".data ++ '/' ::
        (natDigits lod ++ '/' :: (('x' :: intDigits x) ++ '/' :: ('z' :: tail))))))) =
      some ⟨k.data, natDigits lod, intDigits x, intDigits z⟩ := by
  rw [splitSlash_append _ _ (by decide), splitSlash_append _ _ hk2,
    splitSlash_append _ _ (by decide),
    splitSlash_append _ _ (noSlash_of_all_digit (natDigits_all_digit lod)),
    splitSlash_append _ _
      (noSlash_cons (by decide) (noSlash_of_all_hyphenDigit (intDigits_all_hyphenDigit x))),
    splitSlash_no_slash _ htail]
  simp only [extractSegs]
  rw [if_pos (by simp [hk1, natDigits_ne_nil lod, natDigits_all_digit lod]), hparse]
  simp only [extractTail]
  rw [if_pos (by simp [intDigits_ne_nil x, intDigits_all_hyphenDigit x])]

theorem fullmatch_build (k : String) (lod : Nat) (x z : Int) (ext : String) (gz : Bool)
    (hk1 : k.data ≠ []) (hk2 : noSlash k.data) (hext : ext = ".png" ∨ ext = ".json") :
    PATH_EXTRACT_RE_fullmatch (buildPath k lod x z ext gz) =
      some ⟨k.data, natDigits lod, intDigits x, intDigits z⟩ := by
  have hz := noSlash_of_all_hyphenDigit (intDigits_all_hyphenDigit z)
  have htail : noSlash ('z' :: (intDigits z ++ ext.data ++ gzSuffix gz)) := by
    refine noSlash_cons (by decide) (noSlash_append (noSlash_append hz ?_) ?_)
    · rcases hext with h | h <;> subst h <;> decide
    · cases gz <;> decide
  have hparse : parseZName ('z' :: (intDigits z ++ ext.data ++ gzSuffix gz)) =
      some (intDigits z) := by
    rcases hext with h | h <;> subst h <;> cases gz
    · rw [show intDigits z ++ ".png".data ++ gzSuffix false = intDigits z ++ ".png".data
        from by simp [gzSuffix]]
      exact parseZName_png _ (intDigits_ne_nil z) (intDigits_all_hyphenDigit z)
    · exact parseZName_png_gz _ (intDigits_ne_nil z) (intDigits_all_hyphenDigit z)
    · rw [show intDigits z ++ ".json".data ++ gzSuffix false = intDigits z ++ ".json".data
        from by simp [gzSuffix]]
      exact parseZName_json _ (intDigits_ne_nil z) (intDigits_all_hyphenDigit z)
    · exact parseZName_json_gz _ (intDigits_ne_nil z) (intDigits_all_hyphenDigit z)
  exact fullmatch_build_aux k lod x z _ hk1 hk2 htail hparse

theorem coordOfCaptures_canonical (k : String) (lod : Nat) (x z : Int) :
    coordOfCaptures ⟨k.data, natDigits lod, intDigits x, intDigits z⟩ =
      some ⟨k, (lod : Int), x, z⟩ := by
  simp only [coordOfCaptures, pyInt_natDigits, pyInt_intDigits]

theorem dictGet_of_not_mem {d : Conn} {k : String} (h : dictMem d k = false) :
    dictGet d k = [] := by
  induction d with
  | nil => rfl
  | cons p rest ih =>
    rw [dictMem, Bool.or_eq_false_iff] at h
    rw [dictGet, if_neg (by simp [h.1]), ih h.2]

theorem mem_dictGet_mem {d : Conn} {k : String} {ws : Nat} (h : ws ∈ dictGet d k) :
    dictMem d k = true := by
  induction d with
  | nil => simp [dictGet] at h
  | cons p rest ih =>
    rw [dictGet] at h
    rw [dictMem, Bool.or_eq_true]
    by_cases hk : p.1 == k
    · exact Or.inl hk
    · rw [if_neg hk] at h
      exact Or.inr (ih h)

theorem dictGet_set_self (d : Conn) (k : String) (v : List Nat) :
    dictGet (dictSet d k v) k = v := by
  induction d with
  | nil => simp [dictSet, dictGet]
  | cons p rest ih =>
    rw [dictSet]
    by_cases hk : p.1 == k
    · rw [if_pos hk, dictGet, if_pos (by simp)]
    · rw [if_neg hk, dictGet, if_neg hk, ih]

theorem dictGet_set_ne (d : Conn) {k k' : String} (v : List Nat) (h : k' ≠ k) :
    dictGet (dictSet d k v) k' = dictGet d k' := by
  have hkk' : ¬(k = k') := fun hh => h hh.symm
  induction d with
  | nil => simp [dictSet, dictGet, hkk']
  | cons p rest ih =>
    by_cases hp : p.1 == k
    · have hp1 : p.1 = k := by rwa [beq_iff_eq] at hp
      have hp' : ¬(p.1 = k') := by rw [hp1]; exact hkk'
      simp [dictSet, hp, dictGet, hkk', hp']
    · simp only [dictSet, if_neg hp, dictGet]
      by_cases hp' : p.1 == k'
      · rw [if_pos hp', if_pos hp']
      · rw [if_neg hp', if_neg hp', ih]

theorem dictMem_set_self (d : Conn) (k : String) (v : List Nat) :
    dictMem (dictSet d k v) k = true := by
  induction d with
  | nil => simp [dictSet, dictMem]
  | cons p rest ih =>
    by_cases hp : p.1 == k
    · simp [dictSet, hp, dictMem]
    · simp [dictSet, hp, dictMem, ih]

theorem mem_setAdd {s : List Nat} {x y : Nat} :
    y ∈ setAdd s x ↔ y ∈ s ∨ y = x := by
  rw [setAdd]
  by_cases h : x ∈ s
  · rw [if_pos h]
    constructor
    · exact fun hy => Or.inl hy
    · rintro (hy | rfl)
      · exact hy
      · exact h
  · rw [if_neg h]
    simp

theorem setAdd_nodup {s : List Nat} {x : Nat} (h : s.Nodup) : (setAdd s x).Nodup := by
  rw [setAdd]
  by_cases hx : x ∈ s
  · rwa [if_pos hx]
  · rw [if_neg hx]
    simp [List.nodup_append, h, hx]

theorem handlerConnect_cases (tile_dirs : List String) (webroot : String) (c : Conn)
    (target : String) (ws : Nat) :
    (handlerConnect tile_dirs webroot c target ws).1 = c ∨
    (∀ k, dictGet (handlerConnect tile_dirs webroot c target ws).1 k =
      if k = pyStripSlash target then setAdd (dictGet c (pyStripSlash target)) ws
      else dictGet c k) := by
  rw [handlerConnect]
  by_cases hg : pyStripSlash target = "" ∨ make_tile_path webroot (pyStripSlash target) ∉ tile_dirs
  · rw [if_pos hg]
    exact Or.inl rfl
  · rw [if_neg hg]
    refine Or.inr ?_
    have hc1 : ∀ k, dictGet (if dictMem c (pyStripSlash target) then c
        else dictSet c (pyStripSlash target) []) k = dictGet c k := by
      intro k
      by_cases hm : dictMem c (pyStripSlash target)
      · rw [if_pos hm]
      · rw [if_neg hm]
        by_cases hk : k = pyStripSlash target
        · rw [hk, dictGet_set_self, dictGet_of_not_mem (Bool.not_eq_true _ ▸ hm)]
        · rw [dictGet_set_ne _ _ hk]
    intro k
    show dictGet (dictSet _ (pyStripSlash target) (setAdd (dictGet _ (pyStripSlash target)) ws)) k = _
    rw [hc1 (pyStripSlash target)]
    by_cases hk : k = pyStripSlash target
    · rw [if_pos hk, hk, dictGet_set_self]
    · rw [if_neg hk, dictGet_set_ne _ _ hk, hc1 k]

theorem handlerDisconnect_ok {c c' : Conn} {w : String} {ws : Nat}
    (hd : handlerDisconnect c w ws = Except.ok c') :
    dictMem c w = true ∧ ws ∈ dictGet c w ∧
      c' = dictSet c w ((dictGet c w).erase ws) := by
  rw [handlerDisconnect] at hd
  by_cases hm : dictMem c w
  · rw [if_pos hm] at hd
    by_cases hws : ws ∈ dictGet c w
    · rw [if_pos hws] at hd
      exact ⟨hm, hws, (Except.ok.injEq _ _ ▸ hd).symm⟩
    · rw [if_neg hws] at hd
      exact absurd hd (by simp)
  · rw [if_neg hm] at hd
    exact absurd hd (by simp)

/-- The registry invariant maintained by the handler: every websocket is in
at most one world's set, and each set is duplicate-free. -/
theorem reachable_inv {tile_dirs : List String} {webroot : String} {c : Conn}
    (h : Reachable tile_dirs webroot c) :
    (∀ ws k1 k2, ws ∈ dictGet c k1 → ws ∈ dictGet c k2 → k1 = k2) ∧
    (∀ k, (dictGet c k).Nodup) := by
  induction h with
  | empty => exact ⟨fun ws k1 k2 h1 => by simp [dictGet] at h1, fun k => by simp [dictGet]⟩
  | @connect c0 target ws hr hfresh ih =>
    rcases handlerConnect_cases tile_dirs webroot c0 target ws with hcase | hcase
    · rwa [hcase]
    · constructor
      · intro ws' k1 k2 h1 h2
        rw [hcase k1] at h1
        rw [hcase k2] at h2
        by_cases hws' : ws' = ws
        · subst hws'
          have hk1 : k1 = pyStripSlash target := by
            by_cases hk : k1 = pyStripSlash target
            · exact hk
            · rw [if_neg hk] at h1
              exact absurd h1 (hfresh k1)
          have hk2 : k2 = pyStripSlash target := by
            by_cases hk : k2 = pyStripSlash target
            · exact hk
            · rw [if_neg hk] at h2
              exact absurd h2 (hfresh k2)
          rw [hk1, hk2]
        · have h1' : ws' ∈ dictGet c0 k1 := by
            by_cases hk : k1 = pyStripSlash target
            · rw [if_pos hk] at h1
              rcases mem_setAdd.mp h1 with hh | hh
              · rw [hk]; exact hh
              · exact absurd hh hws'
            · rwa [if_neg hk] at h1
          have h2' : ws' ∈ dictGet c0 k2 := by
            by_cases hk : k2 = pyStripSlash target
            · rw [if_pos hk] at h2
              rcases mem_setAdd.mp h2 with hh | hh
              · rw [hk]; exact hh
              · exact absurd hh hws'
            · rwa [if_neg hk] at h2
          exact ih.1 ws' k1 k2 h1' h2'
      · intro k
        rw [hcase k]
        by_cases hk : k = pyStripSlash target
        · rw [if_pos hk]
          exact setAdd_nodup (ih.2 _)
        · rw [if_neg hk]
          exact ih.2 k
  | @disconnect c0 c' w ws hr hd ih =>
    obtain ⟨hm, hws, hc'⟩ := handlerDisconnect_ok hd
    subst hc'
    have hmem : ∀ k' ws', ws' ∈ dictGet (dictSet c0 w ((dictGet c0 w).erase ws)) k' →
        ws' ∈ dictGet c0 k' := by
      intro k' ws' hk'
      by_cases hw : k' = w
      · rw [hw, dictGet_set_self] at hk'
        rw [hw]
        exact List.mem_of_mem_erase hk'
      · rwa [dictGet_set_ne _ _ hw] at hk'
    constructor
    · intro ws' k1 k2 h1 h2
      exact ih.1 ws' k1 k2 (hmem k1 ws' h1) (hmem k2 ws' h2)
    · intro k
      by_cases hw : k = w
      · rw [hw, dictGet_set_self]
        exact (ih.2 w).erase ws
      · rw [dictGet_set_ne _ _ hw]
        exact ih.2 k

theorem broadcastTargets_eq_dictGet (c : Conn) (w : String) :
    broadcastTargets c w = dictGet c w := by
  rw [broadcastTargets]
  by_cases h : dictMem c w
  · rw [if_pos h]
  · rw [if_neg h, dictGet_of_not_mem (Bool.not_eq_true _ ▸ h)]

theorem fresh_of_all (c : Conn) (ws : Nat) (h : ∀ p ∈ c, ws ∉ p.2) :
    ∀ k, ws ∉ dictGet c k := by
  intro k
  induction c with
  | nil => simp [dictGet]
  | cons p rest ih =>
    rw [dictGet]
    by_cases hp : p.1 == k
    · rw [if_pos hp]
      exact h p (List.mem_cons_self p rest)
    · rw [if_neg hp]
      exact ih (fun q hq => h q (List.mem_cons_of_mem p hq))

theorem trimStart_cons_slash (l : List Char) : trimStartSlash ('/' :: l) = trimStartSlash l := by
  simp [trimStartSlash, List.dropWhile, isSlash]

theorem trimStart_append (a b : List Char) :
    trimStartSlash (a ++ b) =
      if trimStartSlash a = [] then trimStartSlash b else trimStartSlash a ++ b := by
  induction a with
  | nil => simp [trimStartSlash]
  | cons c cs ih =>
    by_cases hc : isSlash c
    · have e1 : trimStartSlash ((c :: cs) ++ b) = trimStartSlash (cs ++ b) := by
        simp [trimStartSlash, List.dropWhile_cons_of_pos hc]
      have e2 : trimStartSlash (c :: cs) = trimStartSlash cs := by
        simp [trimStartSlash, List.dropWhile_cons_of_pos hc]
      rw [e1, e2, ih]
    · have e1 : trimStartSlash ((c :: cs) ++ b) = c :: (cs ++ b) := by
        simp [trimStartSlash, List.dropWhile_cons_of_neg hc]
      have e2 : trimStartSlash (c :: cs) = c :: cs := by
        simp [trimStartSlash, List.dropWhile_cons_of_neg hc]
      rw [e1, e2, if_neg (by simp)]
      simp

theorem trimEnd_append_slash (l : List Char) : trimEndSlash (l ++ ['/']) = trimEndSlash l := by
  rw [trimEndSlash, List.reverse_append]
  simp only [List.reverse_cons, List.reverse_nil, List.nil_append, List.singleton_append]
  rw [List.dropWhile_cons_of_pos (by decide), trimEndSlash]

theorem trimStart_all_slash {l : List Char} (h : ∀ c ∈ l, c = '/') :
    trimStartSlash l = [] := by
  induction l with
  | nil => rfl
  | cons c cs ih =>
    rw [trimStartSlash, List.dropWhile_cons_of_pos
      (by simp [isSlash, h c (List.mem_cons_self c cs)]),
      ← trimStartSlash]
    exact ih (fun d hd => h d (List.mem_cons_of_mem c hd))

theorem strData_append (s t : String) : (s ++ t).data = s.data ++ t.data := rfl

theorem pyStripSlash_cons (k : String) : pyStripSlash ("/" ++ k) = pyStripSlash k := by
  rw [pyStripSlash, pyStripSlash, strData_append,
    show ("/" : String).data ++ k.data = '/' :: k.data from rfl, trimStart_cons_slash]

theorem pyStripSlash_concat (k : String) : pyStripSlash (k ++ "/") = pyStripSlash k := by
  rw [pyStripSlash, pyStripSlash, strData_append,
    show ("/" : String).data = ['/'] from rfl, trimStart_append]
  by_cases h : trimStartSlash k.data = []
  · rw [if_pos h, h]
    rfl
  · rw [if_neg h, trimEnd_append_slash]

theorem pyStripSlash_all_slash {t : String} (h : ∀ c ∈ t.data, c = '/') :
    pyStripSlash t = "" := by
  rw [pyStripSlash, trimStart_all_slash h]
  rfl

theorem handlerConnect_congr (tile_dirs : List String) (webroot : String) (c : Conn)
    {t1 t2 : String} (h : pyStripSlash t1 = pyStripSlash t2) (ws : Nat) :
    handlerConnect tile_dirs webroot c t1 ws = handlerConnect tile_dirs webroot c t2 ws := by
  rw [handlerConnect, handlerConnect, h]

theorem takeWhile_all {α : Type} (p : α → Bool) (l : List α) (h : ∀ a ∈ l, p a = true) :
    l.takeWhile p = l := by
  induction l with
  | nil => rfl
  | cons a as ih =>
    rw [List.takeWhile_cons_of_pos (h a (List.mem_cons_self a as)),
      ih (fun b hb => h b (List.mem_cons_of_mem a hb))]

theorem dropWhile_all {α : Type} (p : α → Bool) (l : List α) (h : ∀ a ∈ l, p a = true) :
    l.dropWhile p = [] := by
  induction l with
  | nil => rfl
  | cons a as ih =>
    rw [List.dropWhile_cons_of_pos (h a (List.mem_cons_self a as))]
    exact ih (fun b hb => h b (List.mem_cons_of_mem a hb))

theorem dedup_cons_of_all_eq {α : Type} [DecidableEq α] (a : α) {l : List α}
    (h : ∀ b ∈ l, b = a) : (a :: l).dedup = [a] := by
  induction l with
  | nil => simp
  | cons c cs ih =>
    have hc : c = a := h c (List.mem_cons_self c cs)
    subst hc
    rw [show (c :: c :: cs) = c :: (c :: cs) from rfl,
      List.dedup_cons_of_mem (List.mem_cons_self c cs)]
    exact ih (fun b hb => h b (List.mem_cons_of_mem c hb))

theorem aggregateCore_nil (W fuel : Nat) : aggregateCore W fuel [] = [] := by
  cases fuel <;> rfl

theorem payloadDict_shape {caps : RegexCaptures} {kvs : List (String × Int)}
    (h : payloadDict caps = some kvs) :
    ∃ l xv zv, kvs = [("lod", l), ("x", xv), ("z", zv)] := by
  simp only [payloadDict] at h
  cases hl : pyInt caps.lod with
  | none => rw [hl] at h; simp at h
  | some l =>
    cases hx : pyInt caps.x with
    | none => rw [hl, hx] at h; simp at h
    | some xv =>
      cases hz : pyInt caps.z with
      | none => rw [hl, hx, hz] at h; simp at h
      | some zv =>
        rw [hl, hx, hz] at h
        simp only [Option.some.injEq] at h
        exact ⟨l, xv, zv, h.symm⟩

theorem jsonDumpsInts_shape (l xv zv : Int) :
    jsonDumpsInts [("lod", l), ("x", xv), ("z", zv)] = specPayloadShape l xv zv := by
  apply String.ext
  simp [jsonDumpsInts, jsonFields, specPayloadShape, String.data_append]

theorem processChange_ok_some {c : Conn} {rel w : String} {recips : List Nat} {pay : String}
    (hp : processChange c rel = Except.ok (some (w, recips, pay))) :
    ∃ caps l xv zv, PATH_EXTRACT_RE_fullmatch rel = some caps ∧
      w = ⟨caps.world⟩ ∧ dictMem c w = true ∧ recips = dictGet c w ∧
      payloadDict caps = some [("lod", l), ("x", xv), ("z", zv)] ∧
      pay = jsonDumpsInts [("lod", l), ("x", xv), ("z", zv)] := by
  simp only [processChange] at hp
  split at hp
  · simp at hp
  next caps hm2 =>
    by_cases hmem : dictMem c (⟨caps.world⟩ : String)
    · rw [if_pos hmem] at hp
      split at hp
      next kvs hpd =>
        simp only [Except.ok.injEq, Option.some.injEq, Prod.mk.injEq] at hp
        obtain ⟨hw, hrecips, hpay⟩ := hp
        obtain ⟨l, xv, zv, hkvs⟩ := payloadDict_shape hpd
        subst hkvs
        refine ⟨caps, l, xv, zv, hm2, hw.symm, ?_, ?_, hpd, hpay.symm⟩
        · rw [← hw]; exact hmem
        · rw [← hrecips, hw]
      next hpd => simp at hp
    · rw [if_neg hmem] at hp
      simp at hp

/-- C1: a path that structurally matches `PATH_EXTRACT_RE` but whose `x`
field mixes digits and hyphens (allowed by the `[-\d]+` character class)
makes the broadcast site's `int()` raise `ValueError` out of the watch loop
whenever the world has an entry in `connected`; it is not treated as "no
match".  The second conjunct shows the guard: without a subscribed world the
conversion is never reached and the change is skipped silently. -/
theorem c1_structural_match_int_failure_raises :
    processChange [("overworld", [0])] "maps/overworld/tiles/2/x1-2/z3.png" =
      Except.error "ValueError: invalid literal for int() with base 10" ∧
    processChange [] "maps/overworld/tiles/2/x1-2/z3.png" = Except.ok none := by
  exact ⟨rfl, rfl⟩

/-- C3 counterexample: unsubscribing the same subscriber a second time is not
a safe no-op — after a successful removal, a second `unsubscribe` of the same
subscriber raises `KeyError` (Python `set.remove` on a missing element). -/
theorem c3_counterexample :
    handlerDisconnect [("overworld", [7])] "overworld" 7 =
      Except.ok [("overworld", ([] : List Nat))] ∧
    handlerDisconnect [("overworld", ([] : List Nat))] "overworld" 7 =
      Except.error "KeyError" := by
  exact ⟨rfl, rfl⟩

/-- C3 (amended): in every reachable registry state a subscriber appears in
at most one partition set, and removing a registered subscriber removes it;
but removal is not idempotent: a second removal of the same subscriber
raises `KeyError` instead of being a no-op. -/
theorem c3_registry_invariant_amended {tile_dirs : List String} {webroot : String}
    {c : Conn} (h : Reachable tile_dirs webroot c) :
    (∀ ws k1 k2, ws ∈ dictGet c k1 → ws ∈ dictGet c k2 → k1 = k2) ∧
    (∀ w ws c', handlerDisconnect c w ws = Except.ok c' →
      ws ∉ dictGet c' w ∧ handlerDisconnect c' w ws = Except.error "KeyError") := by
  obtain ⟨hone, hnodup⟩ := reachable_inv h
  refine ⟨hone, ?_⟩
  intro w ws c' hd
  obtain ⟨hm, hws, hc'⟩ := handlerDisconnect_ok hd
  subst hc'
  have hnotin : ws ∉ (dictGet c w).erase ws := (hnodup w).not_mem_erase
  constructor
  · rw [dictGet_set_self]
    exact hnotin
  · rw [handlerDisconnect, dictGet_set_self, if_pos (dictMem_set_self c w _), if_neg hnotin]

/-- C3 witness: in the concrete reachable state with subscriber 7 registered
under "overworld", one removal succeeds and the second raises `KeyError`. -/
theorem c3_witness :
    handlerDisconnect [("overworld", ([] : List Nat))] "overworld" 7 =
      Except.error "KeyError" := by
  have hr : Reachable ["/r/maps/overworld/tiles"] "/r"
      (handlerConnect ["/r/maps/overworld/tiles"] "/r" [] "overworld" 7).1 :=
    Reachable.connect "overworld" 7 Reachable.empty (fresh_of_all [] 7 (by simp))
  have h := (c3_registry_invariant_amended hr).2 "overworld" 7 [("overworld", [])] (by rfl)
  exact h.2

/-- C4: for every path of the grammar with literal integer fields in
canonical decimal notation (extension `.png` or `.json`), extraction returns
the TileCoordinate whose fields are exactly those integers, and the same path
with the `.gz` compression suffix extracts to the same coordinate. -/
theorem c4_extract_literal_integers (k : String) (lod : Nat) (x z : Int) (ext : String)
    (hk1 : k.data ≠ []) (hk2 : noSlash k.data) (hext : ext = ".png" ∨ ext = ".json") :
    extractCoord (buildPath k lod x z ext false) = some ⟨k, (lod : Int), x, z⟩ ∧
    extractCoord (buildPath k lod x z ext true) = some ⟨k, (lod : Int), x, z⟩ := by
  refine ⟨?_, ?_⟩ <;>
    simp only [extractCoord, fullmatch_build k lod x z ext false hk1 hk2 hext,
      fullmatch_build k lod x z ext true hk1 hk2 hext, coordOfCaptures_canonical]

/-- C4 witness: the spec's two examples, with and without the compression
suffix. -/
theorem c4_witness :
    extractCoord "maps/overworld/tiles/2/x-5/z10.png" =
      some ⟨"overworld", 2, -5, 10⟩ ∧
    extractCoord "maps/overworld/tiles/2/x-5/z10.png.gz" =
      some ⟨"overworld", 2, -5, 10⟩ := by
  have h := c4_extract_literal_integers "overworld" 2 (-5) 10 ".png" (by decide) (by decide)
    (Or.inl rfl)
  have e1 : buildPath "overworld" 2 (-5) 10 ".png" false =
      "maps/overworld/tiles/2/x-5/z10.png" := by decide
  have e2 : buildPath "overworld" 2 (-5) 10 ".png" true =
      "maps/overworld/tiles/2/x-5/z10.png.gz" := by decide
  exact ⟨e1 ▸ h.1, e2 ▸ h.2⟩

/-- C7: a connection whose stripped selector is empty or names no known tile
directory is rejected: the handler returns with the registry unchanged, the
websocket is never registered, and (being registered nowhere) it can never be
handed a broadcast payload. -/
theorem c7_reject_unknown_world (tile_dirs : List String) (webroot : String) (c : Conn)
    (target : String) (ws : Nat)
    (hbad : pyStripSlash target = "" ∨ make_tile_path webroot (pyStripSlash target) ∉ tile_dirs)
    (hfresh : ∀ k, ws ∉ dictGet c k) :
    handlerConnect tile_dirs webroot c target ws = (c, false) ∧
    ∀ w, ws ∉ broadcastTargets c w := by
  constructor
  · rw [handlerConnect, if_pos hbad]
  · intro w
    rw [broadcastTargets_eq_dictGet]
    exact hfresh w

/-- C7 witness: a client asking for the unwatched world "nether" is rejected
with the registry unchanged. -/
theorem c7_witness :
    handlerConnect ["/r/maps/overworld/tiles"] "/r" [("overworld", [3])] "/nether" 9 =
      ([("overworld", [3])], false) ∧
    ∀ w, 9 ∉ broadcastTargets [("overworld", [3])] w := by
  exact c7_reject_unknown_world _ _ _ _ _ (Or.inr (by decide)) (fresh_of_all _ 9 (by decide))

/-- C9: when the startup glob finds no tile directories, `serve` raises
`ValueError` before ever reaching the Running phase, and the uncaught
exception makes the process exit non-zero. -/
theorem c9_no_targets_fatal (tile_dirs : List String) (h : tile_dirs = []) :
    serveStart tile_dirs = Except.error "No tile folders to watch found" ∧
    (∀ p, serveStart tile_dirs ≠ Except.ok p) ∧
    mainExitCode tile_dirs = 1 := by
  subst h
  refine ⟨rfl, ?_, rfl⟩
  intro p hp
  simp [serveStart] at hp

/-- C9 witness: the empty tile-directory list. -/
theorem c9_witness :
    serveStart [] = Except.error "No tile folders to watch found" ∧
    (∀ p, serveStart [] ≠ Except.ok p) ∧
    mainExitCode [] = 1 :=
  c9_no_targets_fatal [] rfl

/-- C2: in every reachable registry state, a broadcast produced by the watch
loop is handed exactly the subscribers currently registered under its world:
a subscriber of "overworld" is among the recipients of every broadcast whose
world is "overworld", and is never among the targets of a broadcast for any
other world. -/
theorem c2_broadcast_partition_exact {tile_dirs : List String} {webroot : String}
    {c : Conn} {rel w : String} {recips : List Nat} {pay : String} {s : Nat}
    (hr : Reachable tile_dirs webroot c)
    (hp : processChange c rel = Except.ok (some (w, recips, pay)))
    (hs : s ∈ dictGet c "overworld") :
    recips = dictGet c w ∧
    (w = "overworld" → s ∈ recips) ∧
    (∀ w', w' ≠ "overworld" → s ∉ broadcastTargets c w') := by
  obtain ⟨caps, l, xv, zv, hm, hw, hmem, hrecips, hpd, hpay⟩ := processChange_ok_some hp
  obtain ⟨hone, _⟩ := reachable_inv hr
  refine ⟨hrecips, ?_, ?_⟩
  · intro hww
    rw [hrecips, hww]
    exact hs
  · intro w' hww' hmem'
    rw [broadcastTargets_eq_dictGet] at hmem'
    exact hww' (hone s w' "overworld" hmem' hs)

/-- C2 witness: with subscriber 5 registered under "overworld" (and "nether"
watched), the broadcast for the changed overworld tile is handed exactly
`[5]`, and 5 is never a target of a "nether" broadcast. -/
theorem c2_witness :
    ([5] : List Nat) =
      dictGet (handlerConnect ["/r/maps/overworld/tiles", "/r/maps/nether/tiles"] "/r" []
        "overworld" 5).1 "overworld" ∧
    5 ∈ ([5] : List Nat) ∧
    5 ∉ broadcastTargets (handlerConnect ["/r/maps/overworld/tiles", "/r/maps/nether/tiles"]
        "/r" [] "overworld" 5).1 "nether" := by
  have hr : Reachable ["/r/maps/overworld/tiles", "/r/maps/nether/tiles"] "/r"
      (handlerConnect ["/r/maps/overworld/tiles", "/r/maps/nether/tiles"] "/r" []
        "overworld" 5).1 :=
    Reachable.connect "overworld" 5 Reachable.empty (fresh_of_all [] 5 (by simp))
  have hp : processChange (handlerConnect ["/r/maps/overworld/tiles", "/r/maps/nether/tiles"]
      "/r" [] "overworld" 5).1 "maps/overworld/tiles/2/x-5/z10.png" =
      Except.ok (some ("overworld", [5], "\x7b\"lod\": 2, \"x\": -5, \"z\": 10\x7d")) := by rfl
  have hs : (5 : Nat) ∈ dictGet (handlerConnect ["/r/maps/overworld/tiles",
      "/r/maps/nether/tiles"] "/r" [] "overworld" 5).1 "overworld" := by decide
  have h := c2_broadcast_partition_exact hr hp hs
  exact ⟨h.1, h.2.1 rfl, h.2.2 "nether" (by decide)⟩

/-- C5: when the send to one subscriber of a partition fails, the broadcast
fan-out still delivers to every subscriber whose send succeeds and never
re-raises; the failing subscriber is (on the teardown path of its handler)
removed from its partition, after which it is no longer a broadcast target. -/
theorem c5_send_failure_isolated {tile_dirs : List String} {webroot : String} {c : Conn}
    (hr : Reachable tile_dirs webroot c) (w : String) (send : Nat → Except String Unit)
    (b : Nat) (hb : b ∈ broadcastTargets c w) (hfail : (send b).isOk = false) :
    b ∉ wsBroadcast send (broadcastTargets c w) ∧
    (∀ s ∈ broadcastTargets c w, (send s).isOk = true →
      s ∈ wsBroadcast send (broadcastTargets c w)) ∧
    ∃ c', handlerDisconnect c w b = Except.ok c' ∧ b ∉ broadcastTargets c' w := by
  obtain ⟨hone, hnodup⟩ := reachable_inv hr
  refine ⟨?_, ?_, ?_⟩
  · intro hmem
    rw [wsBroadcast, List.mem_filter, hfail] at hmem
    exact absurd hmem.2 (by decide)
  · intro s hs hok
    rw [wsBroadcast, List.mem_filter]
    exact ⟨hs, hok⟩
  · rw [broadcastTargets_eq_dictGet] at hb
    have hm : dictMem c w = true := mem_dictGet_mem hb
    refine ⟨dictSet c w ((dictGet c w).erase b), ?_, ?_⟩
    · rw [handlerDisconnect, if_pos hm, if_pos hb]
    · rw [broadcastTargets_eq_dictGet, dictGet_set_self]
      exact (hnodup w).not_mem_erase

/-- C5 witness: subscribers 0 and 1 under "overworld"; the send to 0 fails,
1 still receives the payload, and 0 is dropped from the partition. -/
theorem c5_witness :
    0 ∉ wsBroadcast (fun s => if s = 0 then Except.error "broken pipe" else Except.ok ())
      (broadcastTargets (handlerConnect ["/r/maps/overworld/tiles"] "/r"
        (handlerConnect ["/r/maps/overworld/tiles"] "/r" [] "overworld" 0).1
        "overworld" 1).1 "overworld") ∧
    1 ∈ wsBroadcast (fun s => if s = 0 then Except.error "broken pipe" else Except.ok ())
      (broadcastTargets (handlerConnect ["/r/maps/overworld/tiles"] "/r"
        (handlerConnect ["/r/maps/overworld/tiles"] "/r" [] "overworld" 0).1
        "overworld" 1).1 "overworld") ∧
    ∃ c', handlerDisconnect (handlerConnect ["/r/maps/overworld/tiles"] "/r"
        (handlerConnect ["/r/maps/overworld/tiles"] "/r" [] "overworld" 0).1
        "overworld" 1).1 "overworld" 0 = Except.ok c' ∧
      0 ∉ broadcastTargets c' "overworld" := by
  have hr1 : Reachable ["/r/maps/overworld/tiles"] "/r"
      (handlerConnect ["/r/maps/overworld/tiles"] "/r" [] "overworld" 0).1 :=
    Reachable.connect "overworld" 0 Reachable.empty (fresh_of_all [] 0 (by simp))
  have hr2 : Reachable ["/r/maps/overworld/tiles"] "/r"
      (handlerConnect ["/r/maps/overworld/tiles"] "/r"
        (handlerConnect ["/r/maps/overworld/tiles"] "/r" [] "overworld" 0).1
        "overworld" 1).1 :=
    Reachable.connect "overworld" 1 hr1 (fresh_of_all _ 1 (by decide))
  have h := c5_send_failure_isolated hr2 "overworld"
    (fun s => if s = 0 then Except.error "broken pipe" else Except.ok ()) 0
    (by decide) (by rfl)
  exact ⟨h.1, h.2.1 1 (by decide) (by rfl), h.2.2⟩

/-- C6: any number N ≥ 1 of modify events on the same path arriving within
one debounce window yields exactly one batch, and that batch contains the
path exactly once. -/
theorem c6_debounce_single_batch (W : Nat) (p : String) (t0 : Nat) (ts : List Nat)
    (h : ∀ t ∈ ts, t < t0 + W) :
    aggregate W ((⟨t0, p, ChangeKind.modified⟩ : RawEvent) ::
        ts.map (fun t => (⟨t, p, ChangeKind.modified⟩ : RawEvent))) =
      [[(p, ChangeKind.modified)]] := by
  have hall : ∀ ev ∈ ts.map (fun t => (⟨t, p, ChangeKind.modified⟩ : RawEvent)),
      (fun e2 : RawEvent =>
        decide (e2.t < (⟨t0, p, ChangeKind.modified⟩ : RawEvent).t + W)) ev = true := by
    intro ev hev
    rw [List.mem_map] at hev
    obtain ⟨t, ht, rfl⟩ := hev
    exact decide_eq_true (h t ht)
  rw [aggregate]
  rw [show ((⟨t0, p, ChangeKind.modified⟩ : RawEvent) ::
      ts.map (fun t => (⟨t, p, ChangeKind.modified⟩ : RawEvent))).length = ts.length + 1
    from by simp]
  simp only [aggregateCore]
  rw [takeWhile_all _ _ hall, dropWhile_all _ _ hall, aggregateCore_nil]
  rw [List.map_cons, List.map_map]
  rw [dedup_cons_of_all_eq (p, ChangeKind.modified) (by
    intro b hb
    rw [List.mem_map] at hb
    obtain ⟨t, ht, rfl⟩ := hb
    rfl)]

/-- C6 witness: three rapid modify events on the same path inside one 5000 ms
window produce one batch holding the path once. -/
theorem c6_witness :
    aggregate 5000 [⟨0, "maps/overworld/tiles/2/x-5/z10.png", ChangeKind.modified⟩,
      ⟨1, "maps/overworld/tiles/2/x-5/z10.png", ChangeKind.modified⟩,
      ⟨2, "maps/overworld/tiles/2/x-5/z10.png", ChangeKind.modified⟩] =
      [[("maps/overworld/tiles/2/x-5/z10.png", ChangeKind.modified)]] := by
  have h := c6_debounce_single_batch 5000 "maps/overworld/tiles/2/x-5/z10.png" 0 [1, 2]
    (by decide)
  exact h

/-- C8: every payload the watch loop hands to the broadcast is a JSON text of
exactly the shape with the three integer fields `lod`, `x`, `z` and nothing
else; in particular the dataset key is not part of the payload. -/
theorem c8_payload_shape {c : Conn} {rel w : String} {recips : List Nat} {pay : String}
    (hp : processChange c rel = Except.ok (some (w, recips, pay))) :
    ∃ l xv zv : Int, pay = specPayloadShape l xv zv := by
  obtain ⟨caps, l, xv, zv, _, _, _, _, _, hpay⟩ := processChange_ok_some hp
  exact ⟨l, xv, zv, by rw [hpay, jsonDumpsInts_shape]⟩

/-- C8 witness: the payload broadcast for the overworld tile change is the
spec shape at lod 2, x -5, z 10. -/
theorem c8_witness :
    ∃ l xv zv : Int,
      "\x7b\"lod\": 2, \"x\": -5, \"z\": 10\x7d" = specPayloadShape l xv zv := by
  exact c8_payload_shape (show processChange [("overworld", [5])]
    "maps/overworld/tiles/2/x-5/z10.png" = Except.ok (some ("overworld", [5],
      "\x7b\"lod\": 2, \"x\": -5, \"z\": 10\x7d")) from by rfl)

/-- C10: the dataset key is the request target stripped of all leading and
trailing slashes, so the selectors `/k`, `k/` and `/k/` subscribe exactly as
`k` does, and a target that is empty or consists only of slashes is always
rejected with the registry unchanged. -/
theorem c10_strip_selector (tile_dirs : List String) (webroot : String) (c : Conn)
    (ws : Nat) (k : String) :
    handlerConnect tile_dirs webroot c ("/" ++ k) ws =
      handlerConnect tile_dirs webroot c k ws ∧
    handlerConnect tile_dirs webroot c (k ++ "/") ws =
      handlerConnect tile_dirs webroot c k ws ∧
    handlerConnect tile_dirs webroot c ("/" ++ k ++ "/") ws =
      handlerConnect tile_dirs webroot c k ws ∧
    (∀ t : String, (∀ ch ∈ t.data, ch = '/') →
      handlerConnect tile_dirs webroot c t ws = (c, false)) := by
  refine ⟨handlerConnect_congr _ _ _ (pyStripSlash_cons k) ws,
    handlerConnect_congr _ _ _ (pyStripSlash_concat k) ws, ?_, ?_⟩
  · have hh : pyStripSlash ("/" ++ k ++ "/") = pyStripSlash k := by
      rw [pyStripSlash_concat ("/" ++ k), pyStripSlash_cons k]
    exact handlerConnect_congr _ _ _ hh ws
  · intro t ht
    rw [handlerConnect, if_pos (Or.inl (pyStripSlash_all_slash ht))]

/-- C10 witness: `/overworld` subscribes exactly as `overworld`, and the
all-slash target `//` is rejected. -/
theorem c10_witness :
    handlerConnect ["/r/maps/overworld/tiles"] "/r" [] "/overworld" 0 =
      handlerConnect ["/r/maps/overworld/tiles"] "/r" [] "overworld" 0 ∧
    handlerConnect ["/r/maps/overworld/tiles"] "/r" [] "//" 0 = ([], false) := by
  have h := c10_strip_selector ["/r/maps/overworld/tiles"] "/r" [] 0 "overworld"
  exact ⟨h.1, h.2.2.2 "//" (by decide)⟩

end Wswatcher
